import Mathlib

/-!
Shallow embedding of the file-integrity monitor (`src/monitor.py`, `src/app.py`).

The monitor establishes a baseline mapping relative path -> {hash, mtime, size}
(`hash_db.json`), rescans the monitored directory each cycle, and classifies
every relative path as new / deleted / verified / corrupted / unreadable,
optionally healing the baseline in auto-update mode.

The embedding models:
  * the baseline store (`load_hash_db` / `save_hash_db`) over an abstract
    file state and a JSON-value AST;
  * the hasher (`hash_file`) as a chunked fold over file bytes, with the
    digest-state operations abstract;
  * the diff engine (`perform_check`) over a snapshot (association list of
    relative path -> metadata, Python dict order), a baseline association
    list, and a read-hash oracle `String -> Option String` that returns
    `none` exactly when hashing the file raises;
  * the CLI run (`runOnce`) and the watch loop (`watchRun`).

Python dicts are modelled as association lists with insertion-order
semantics: `dictInsert` updates in place or appends, `dictRemove` deletes,
`dictLookup` finds the (unique) binding.
-/

namespace Monitor

/-- Per-file metadata recorded by `scan_directory`: absolute path, mtime, size. -/
structure Meta where
  path : String
  mtime : Int
  size : Int
deriving Repr, DecidableEq

/-- A baseline entry as stored in `hash_db.json`: content hash, mtime, size. -/
structure Entry where
  hash : String
  mtime : Int
  size : Int
deriving Repr, DecidableEq

/-- A snapshot: relative path -> metadata, in directory-walk (dict) order. -/
abbrev Snapshot := List (String × Meta)

/-- The baseline: relative path -> entry, in dict order. -/
abbrev Db := List (String × Entry)

/-- Python `d[k]` membership/lookup: first (unique) binding of `k`. -/
def dictLookup {α : Type} : List (String × α) → String → Option α
  | [], _ => none
  | (k, v) :: rest, key => if k = key then some v else dictLookup rest key

/-- Python `d[k] = v`: update the existing binding in place, else append. -/
def dictInsert {α : Type} : List (String × α) → String → α → List (String × α)
  | [], key, v => [(key, v)]
  | (k, w) :: rest, key, v =>
    if k = key then (key, v) :: rest else (k, w) :: dictInsert rest key v

/-- Python `d.pop(k, None)`: drop the binding of `k`. -/
def dictRemove {α : Type} : List (String × α) → String → List (String × α)
  | [], _ => []
  | (k, v) :: rest, key =>
    if k = key then dictRemove rest key else (k, v) :: dictRemove rest key

/-- One logger/notifier action of a check cycle, in emission order.
`newFile`, `deletedFile`, `verified`, `corrupted`, `unreadable` are the five
classification outcomes; the others are auto-update info lines and the
notifier call. -/
inductive Event where
  | newFile (rel : String)
  | addedToBaseline (rel : String)
  | deletedFile (rel : String)
  | removedFromBaseline (rel : String)
  | unreadable (rel : String)
  | verified (rel : String)
  | corrupted (rel : String)
  | notified (rel subject body toAddr : String)
  | healed (rel : String)
deriving Repr, DecidableEq

/-- The relative path an event is about. -/
def evRel : Event → String
  | .newFile r => r
  | .addedToBaseline r => r
  | .deletedFile r => r
  | .removedFromBaseline r => r
  | .unreadable r => r
  | .verified r => r
  | .corrupted r => r
  | .notified r _ _ _ => r
  | .healed r => r

/-- Is this one of the five classification outcomes of the spec? -/
def isClassification : Event → Bool
  | .newFile _ => true
  | .deletedFile _ => true
  | .unreadable _ => true
  | .verified _ => true
  | .corrupted _ => true
  | _ => false

/-- Events of the cycle that concern a given relative path. -/
def relEvents (rel : String) (evs : List Event) : List Event :=
  evs.filter (fun ev => evRel ev == rel)

/-- Number of classification events a path received in a cycle. -/
def classifCount (rel : String) (evs : List Event) : Nat :=
  (evs.filter (fun ev => isClassification ev && (evRel ev == rel))).length

/-- Number of `corrupted`-or-`unreadable` classifications: what the Python
`corrupted` counter counts. -/
def cuCount (evs : List Event) : Nat :=
  (evs.filter (fun ev =>
    match ev with
    | .corrupted _ => true
    | .unreadable _ => true
    | _ => false)).length

/-- Subject line of the modification alert (monitor.py line 188). -/
def alertSubject (rel : String) : String :=
  "[ALERT] Integrity failed: " ++ rel

/-- Body of the modification alert (monitor.py line 189): mentions the
baseline digest and the current digest. -/
def alertBody (rel baselineHash currentHash : String) : String :=
  "File " ++ rel ++ " changed.\nBaseline hash: " ++ baselineHash ++
    "\nCurrent hash: " ++ currentHash

/-- Errors that abort a check cycle: the missing-directory check at the top
of `perform_check`, and an uncaught `hash_file` exception in the new-file
loop (monitor.py line 155 runs outside any try/except). -/
inductive CheckErr where
  | dirNotFound
  | readErrorNew (rel : String)
deriving Repr, DecidableEq

/-- New-file loop (monitor.py lines 151-158): for each snapshot path not in
the db, alert `newFile`, hash it (uncaught on failure), and under
auto-update insert it into the db. Returns events, db, anomaly flag. -/
def newFilePass (readHash : String → Option String) (auto : Bool) :
    Snapshot → Db → Except CheckErr (List Event × Db × Bool)
  | [], db => .ok ([], db, false)
  | (rel, meta) :: rest, db =>
    if (dictLookup db rel).isSome then
      newFilePass readHash auto rest db
    else
      match readHash meta.path with
      | none => .error (.readErrorNew rel)
      | some h =>
        let db1 := if auto then dictInsert db rel ⟨h, meta.mtime, meta.size⟩ else db
        let evs := Event.newFile rel ::
          (if auto then [Event.addedToBaseline rel] else [])
        match newFilePass readHash auto rest db1 with
        | .error e => .error e
        | .ok (evs2, db2, _) => .ok (evs ++ evs2, db2, true)

/-- Deleted-file loop (monitor.py lines 161-167): alert each baseline path
absent from the snapshot; under auto-update pop it from the db. -/
def deletedPass (auto : Bool) : List String → Db → List Event × Db
  | [], db => ([], db)
  | f :: rest, db =>
    let evs := Event.deletedFile f ::
      (if auto then [Event.removedFromBaseline f] else [])
    let db1 := if auto then dictRemove db f else db
    let (evs2, db2) := deletedPass auto rest db1
    (evs ++ evs2, db2)

/-- Modified-file loop (monitor.py lines 170-196): for each snapshot path
still in the (possibly already mutated) db, re-hash; on read failure emit
`unreadable` and count it corrupted; on hash match emit `verified`; on
mismatch emit `corrupted`, invoke the notifier, and under auto-update heal
the entry. Returns events, db, safe count, corrupted count, anomaly flag. -/
def verifyPass (readHash : String → Option String) (auto : Bool) (toAddr : String) :
    Snapshot → Db → List Event × Db × Nat × Nat × Bool
  | [], db => ([], db, 0, 0, false)
  | (rel, meta) :: rest, db =>
    match dictLookup db rel with
    | none => verifyPass readHash auto toAddr rest db
    | some entry =>
      match readHash meta.path with
      | none =>
        let (evs, db2, s, c, _) := verifyPass readHash auto toAddr rest db
        (Event.unreadable rel :: evs, db2, s, c + 1, true)
      | some curH =>
        if curH = entry.hash then
          let (evs, db2, s, c, a) := verifyPass readHash auto toAddr rest db
          (Event.verified rel :: evs, db2, s + 1, c, a)
        else
          let db1 := if auto then dictInsert db rel ⟨curH, meta.mtime, meta.size⟩ else db
          let evs0 := Event.corrupted rel ::
            Event.notified rel (alertSubject rel) (alertBody rel entry.hash curH) toAddr ::
            (if auto then [Event.healed rel] else [])
          let (evs, db2, s, c, _) := verifyPass readHash auto toAddr rest db1
          (evs0 ++ evs, db2, s, c + 1, true)

/-- Result of one completed check cycle: events in order, the db that
`save_hash_db` persists, the `safe` and `corrupted` counters, and whether
`last_anomaly` was set. -/
structure CheckResult where
  events : List Event
  db : Db
  safe : Nat
  corrupted : Nat
  anomaly : Bool
deriving Repr, DecidableEq

/-- The diff engine `perform_check` (monitor.py lines 139-199). `isDir`
models `os.path.isdir(dirpath)`; `current` is the snapshot from
`scan_directory`; `db0` the loaded baseline; `readHash` the hashing oracle
(`none` = exception); `toAddr` the notifier recipient. -/
def perform_check (isDir : Bool) (current : Snapshot) (db0 : Db)
    (readHash : String → Option String) (auto : Bool) (toAddr : String) :
    Except CheckErr CheckResult :=
  if !isDir then .error .dirNotFound
  else
    match newFilePass readHash auto current db0 with
    | .error e => .error e
    | .ok (e1, db1, a1) =>
      let deleted := (db1.map Prod.fst).filter (fun f => (dictLookup current f).isNone)
      let (e2, db2) := deletedPass auto deleted db1
      let a2 := !deleted.isEmpty
      let (e3, db3, safe, corr, a3) := verifyPass readHash auto toAddr current db2
      .ok ⟨e1 ++ e2 ++ e3, db3, safe, corr, a1 || a2 || a3⟩

/-- JSON values as far as the baseline file uses them: strings, integers,
and objects (`json.dump` / `json.load` restricted to the hash-db shape). -/
inductive JVal where
  | str (s : String)
  | num (n : Int)
  | obj (fields : List (String × JVal))

/-- Serialize one baseline entry as `json.dump` does. -/
def encodeEntry (e : Entry) : JVal :=
  .obj [("hash", .str e.hash), ("mtime", .num e.mtime), ("size", .num e.size)]

/-- Serialize the whole baseline as a single JSON object. -/
def encodeDb (db : Db) : JVal :=
  .obj (db.map (fun p => (p.1, encodeEntry p.2)))

/-- Read one entry back out of its JSON form. -/
def decodeEntry : JVal → Option Entry
  | .obj [("hash", .str h), ("mtime", .num m), ("size", .num s)] => some ⟨h, m, s⟩
  | _ => none

/-- Read a field list back into a baseline, failing on any malformed entry. -/
def decodeFields : List (String × JVal) → Option Db
  | [] => some []
  | (k, v) :: rest =>
    match decodeEntry v, decodeFields rest with
    | some e, some db => some ((k, e) :: db)
    | _, _ => none

/-- Read a JSON document back into a baseline. -/
def decodeDb : JVal → Option Db
  | .obj fields => decodeFields fields
  | _ => none

/-- State of the baseline file as `load_hash_db` can encounter it:
absent, present but unopenable/unreadable, present but not valid JSON,
or a parsed JSON document. -/
inductive DbFile where
  | missing
  | openError
  | invalid
  | json (j : JVal)

/-- The baseline loader (monitor.py lines 110-117): `{}` when the file is
absent; `open` outside the try block, so an open/read failure propagates;
`json.load` inside it, so a `JSONDecodeError` yields `{}`. -/
def load_hash_db : DbFile → Except Unit JVal
  | .missing => .ok (.obj [])
  | .openError => .error ()
  | .invalid => .ok (.obj [])
  | .json j => .ok j

/-- The baseline saver (monitor.py lines 119-121): rewrite the whole file
as one JSON document. -/
def save_hash_db (db : Db) : DbFile :=
  .json (encodeDb db)

/-- Split a byte stream into the successive `f.read(4096)` chunks of
`hash_file`: each chunk is `n + 1` bytes except a shorter last one. -/
def chunkBytesAux (n : Nat) : List Nat → List (List Nat)
  | [] => []
  | b :: rest => (b :: rest.take n) :: chunkBytesAux n (rest.drop n)
termination_by bs => bs.length
decreasing_by simp [List.length_drop]; omega

/-- The 4096-byte chunking of `hash_file`'s read loop. -/
def chunkBytes (bs : List Nat) : List (List Nat) :=
  chunkBytesAux 4095 bs

/-- The hasher (monitor.py lines 70-75): open the file, fold its 4096-byte
chunks through the streaming digest (`update` on state type `α`, started
from `init`), and render with `hexdigest`. `fs` maps a path to its byte
content, `none` when opening or reading raises. Pure in everything but the
bytes read. -/
def hash_file {α : Type} (update : α → List Nat → α) (init : α)
    (hexdigest : α → String) (fs : String → Option (List Nat)) (path : String) :
    Option String :=
  (fs path).map (fun bs => hexdigest ((chunkBytes bs).foldl update init))

/-- One non-watch run (monitor.py lines 245-251): any exception from
`perform_check` is caught and turned into exit code 1, success exits 0. -/
def runOnce (isDir : Bool) (current : Snapshot) (db0 : Db)
    (readHash : String → Option String) (auto : Bool) (toAddr : String) : Nat :=
  match perform_check isDir current db0 readHash auto toAddr with
  | .ok _ => 0
  | .error _ => 1

/-- What one watch tick observes: directory state, snapshot, baseline, and
hashing oracle at that tick. -/
structure CycleInput where
  isDir : Bool
  current : Snapshot
  db : Db
  readHash : String → Option String

/-- Outcome of one watch tick (monitor.py lines 255-260): a cycle error is
logged as an alert and the loop goes on; otherwise the cycle completed. -/
inductive WatchOutcome where
  | alertLogged (e : CheckErr)
  | completed (r : CheckResult)

/-- One iteration of the watch loop body. -/
def watchIteration (auto : Bool) (toAddr : String) (ci : CycleInput) : WatchOutcome :=
  match perform_check ci.isDir ci.current ci.db ci.readHash auto toAddr with
  | .error e => .alertLogged e
  | .ok r => .completed r

/-- The watch loop over a sequence of ticks: every tick is processed,
whatever the earlier ticks did (the `while True` never exits on a cycle
error). -/
def watchRun (auto : Bool) (toAddr : String) (ticks : List CycleInput) :
    List WatchOutcome :=
  ticks.map (watchIteration auto toAddr)

/-- `sub` occurs as a contiguous substring of `body`. -/
def mentions (body sub : String) : Prop :=
  sub.data <:+: body.data

/-- Keys of a snapshot that are not in the baseline: the new files. -/
def onlyInSnapshot (s : Snapshot) (b : Db) : List String :=
  (s.map Prod.fst).filter (fun k => (dictLookup b k).isNone)

/-- Keys of the baseline that are not in the snapshot: the deleted files. -/
def onlyInBaseline (s : Snapshot) (b : Db) : List String :=
  (b.map Prod.fst).filter (fun k => (dictLookup s k).isNone)

/-- Keys present in both snapshot and baseline: verify/modify candidates. -/
def inBoth (s : Snapshot) (b : Db) : List String :=
  (s.map Prod.fst).filter (fun k => (dictLookup b k).isSome)

theorem dictLookup_eq_none {α : Type} (l : List (String × α)) (k : String) :
    dictLookup l k = none ↔ k ∉ l.map Prod.fst := by
  induction l with
  | nil => simp [dictLookup]
  | cons p rest ih =>
    obtain ⟨k₁, v₁⟩ := p
    by_cases h : k₁ = k
    · subst h
      simp [dictLookup]
    · simp only [dictLookup, if_neg h, List.map_cons, List.mem_cons, ih]
      constructor
      · intro hnk hor
        rcases hor with h1 | h2
        · exact h h1.symm
        · exact hnk h2
      · intro hnk h2
        exact hnk (Or.inr h2)

theorem dictLookup_isSome {α : Type} (l : List (String × α)) (k : String) :
    (dictLookup l k).isSome ↔ k ∈ l.map Prod.fst := by
  have h := dictLookup_eq_none l k
  cases hv : dictLookup l k <;> simp [hv] at h ⊢ <;> exact h

theorem dictLookup_insert {α : Type} (l : List (String × α)) (k : String) (v : α)
    (k' : String) :
    dictLookup (dictInsert l k v) k' = if k = k' then some v else dictLookup l k' := by
  induction l with
  | nil => simp [dictInsert, dictLookup]
  | cons p rest ih =>
    obtain ⟨k₁, v₁⟩ := p
    by_cases h : k₁ = k
    · subst h
      by_cases h' : k₁ = k' <;> simp [dictInsert, dictLookup, h']
    · by_cases h' : k₁ = k'
      · subst h'
        have hkk : ¬ k = k₁ := fun he => h he.symm
        simp [dictInsert, dictLookup, h, hkk]
      · simp [dictInsert, dictLookup, h, h', ih]

theorem dictLookup_remove_ne {α : Type} (l : List (String × α)) (key k : String)
    (h : k ≠ key) : dictLookup (dictRemove l key) k = dictLookup l k := by
  induction l with
  | nil => simp [dictRemove, dictLookup]
  | cons p rest ih =>
    obtain ⟨k₁, v₁⟩ := p
    by_cases h₁ : k₁ = key
    · subst h₁
      have hkk : ¬ k₁ = k := fun he => h he.symm
      simp [dictRemove, dictLookup, hkk, ih]
    · simp [dictRemove, dictLookup, h₁, ih]

theorem decodeEntry_encodeEntry (e : Entry) : decodeEntry (encodeEntry e) = some e := by
  cases e
  simp [encodeEntry, decodeEntry]

theorem decodeFields_encode (db : Db) :
    decodeFields (db.map (fun p => (p.1, encodeEntry p.2))) = some db := by
  induction db with
  | nil => simp [decodeFields]
  | cons p rest ih =>
    obtain ⟨k, e⟩ := p
    simp [decodeFields, decodeEntry_encodeEntry, ih]

/-- C6: the baseline loader returns an empty baseline both when the file is
missing and when it exists but fails to parse; neither case is an error. -/
theorem load_hash_db_missing_or_unparseable_empty :
    load_hash_db .missing = .ok (encodeDb []) ∧
    load_hash_db .invalid = .ok (encodeDb []) :=
  ⟨rfl, rfl⟩

/-- C10: the loader swallows only parse failures; a file that exists but
cannot be opened or read makes the load fail to the caller. -/
theorem load_hash_db_open_error_propagates :
    load_hash_db .openError = .error () :=
  rfl

/-- C7: saving a baseline and loading it back returns that baseline: the
loader hands back exactly the saved JSON document, and decoding it loses or
alters no entry. -/
theorem baseline_round_trip (db : Db) (hne : db ≠ []) :
    load_hash_db (save_hash_db db) = .ok (encodeDb db) ∧
    decodeDb (encodeDb db) = some db :=
  ⟨rfl, by simp [decodeDb, encodeDb, decodeFields_encode]⟩

/-- Witness for C7 at a concrete two-entry baseline. -/
theorem baseline_round_trip_witness :
    ([("a.txt", ⟨"d1", 5, 7⟩), ("b/c.txt", ⟨"d2", 9, 11⟩)] : Db) ≠ [] ∧
    (load_hash_db (save_hash_db [("a.txt", ⟨"d1", 5, 7⟩), ("b/c.txt", ⟨"d2", 9, 11⟩)]) =
        .ok (encodeDb [("a.txt", ⟨"d1", 5, 7⟩), ("b/c.txt", ⟨"d2", 9, 11⟩)]) ∧
      decodeDb (encodeDb [("a.txt", ⟨"d1", 5, 7⟩), ("b/c.txt", ⟨"d2", 9, 11⟩)]) =
        some [("a.txt", ⟨"d1", 5, 7⟩), ("b/c.txt", ⟨"d2", 9, 11⟩)]) :=
  ⟨by simp, baseline_round_trip _ (by simp)⟩

/-- C8: the hasher is a pure function of the file bytes: if two reads (of
either the same or different paths or filesystem states) see the same byte
content, the digests agree. -/
theorem hash_file_deterministic {α : Type} (update : α → List Nat → α) (init : α)
    (hexdigest : α → String) (fs fsB : String → Option (List Nat)) (p pB : String)
    (h : fs p = fsB pB) :
    hash_file update init hexdigest fs p = hash_file update init hexdigest fsB pB := by
  simp [hash_file, h]

/-- Witness for C8: two filesystem states agreeing on the read bytes. -/
theorem hash_file_deterministic_witness :
    (fun (_ : String) => some [1, 2, 3]) "x" =
      (fun (s : String) => if s == "y" then some [1, 2, 3] else none) "y" ∧
    hash_file (fun (a : Nat) (c : List Nat) => a + c.length) 0 (fun n => toString n)
        (fun _ => some [1, 2, 3]) "x" =
      hash_file (fun (a : Nat) (c : List Nat) => a + c.length) 0 (fun n => toString n)
        (fun s => if s == "y" then some [1, 2, 3] else none) "y" :=
  ⟨by decide, hash_file_deterministic _ _ _ _ _ _ _ (by decide)⟩

/-- C9: a missing or non-directory root makes the cycle fail with the
directory-not-found error; a non-watch run turns that into exit code 1; the
watch loop logs it and still processes every later tick. -/
theorem missing_root_dir_behaviour (current : Snapshot) (db0 : Db)
    (rh : String → Option String) (auto : Bool) (toA : String) :
    perform_check false current db0 rh auto toA = .error .dirNotFound ∧
    runOnce false current db0 rh auto toA = 1 ∧
    ∀ rest : List CycleInput,
      watchRun auto toA (⟨false, current, db0, rh⟩ :: rest) =
        .alertLogged .dirNotFound :: watchRun auto toA rest :=
  ⟨rfl, rfl, fun _ => rfl⟩

theorem newFilePass_false_db (rh : String → Option String) :
    ∀ (S : Snapshot) (db : Db) (E : List Event) (db2 : Db) (a : Bool),
      newFilePass rh false S db = .ok (E, db2, a) → db2 = db := by
  intro S
  induction S with
  | nil =>
    intro db E db2 a h
    simp [newFilePass] at h
    exact h.2.1.symm
  | cons p rest ih =>
    obtain ⟨rel, meta⟩ := p
    intro db E db2 a h
    simp only [newFilePass] at h
    split at h
    · exact ih db E db2 a h
    · split at h
      · exact absurd h (by simp)
      · split at h
        · exact absurd h (by simp)
        · simp only [if_neg Bool.false_ne_true] at h
          rename_i hrec
          simp at h
          exact (h.2.1 ▸ ih db _ _ _ hrec)

theorem deletedPass_false (D : List String) (db : Db) :
    deletedPass false D db = (D.map Event.deletedFile, db) := by
  induction D generalizing db with
  | nil => simp [deletedPass]
  | cons f rest ih => simp [deletedPass, ih]

theorem verifyPass_false_db (rh : String → Option String) (toA : String) :
    ∀ (S : Snapshot) (db : Db), (verifyPass rh false toA S db).2.1 = db := by
  intro S
  induction S with
  | nil => intro db; simp [verifyPass]
  | cons p rest ih =>
    obtain ⟨rel, meta⟩ := p
    intro db
    simp only [verifyPass]
    split
    · exact ih db
    · split
      · simpa using ih db
      · split
        · simpa using ih db
        · simpa using ih db

/-- C3: with auto-update off, a successful check cycle persists exactly the
baseline entries it loaded: the saved db equals the loaded db. -/
theorem no_auto_update_frame (isDir : Bool) (S : Snapshot) (B : Db)
    (rh : String → Option String) (toA : String) (res : CheckResult)
    (hrun : perform_check isDir S B rh false toA = .ok res) :
    res.db = B ∧ save_hash_db res.db = save_hash_db B := by
  have hdb : res.db = B := by
    simp only [perform_check] at hrun
    split at hrun
    · exact absurd hrun (by simp)
    · cases hnf : newFilePass rh false S B with
      | error e => rw [hnf] at hrun; exact absurd hrun (by simp)
      | ok t =>
        obtain ⟨E1, db1, a1⟩ := t
        rw [hnf] at hrun
        have hdb1 : db1 = B := newFilePass_false_db rh S B E1 db1 a1 hnf
        simp only [deletedPass_false] at hrun
        rcases hver : verifyPass rh false toA S db1 with ⟨E3, db3, s3, c3, a3⟩
        have hdb3 : db3 = db1 := by
          have := verifyPass_false_db rh toA S db1
          rw [hver] at this
          exact this
        rw [hver] at hrun
        simp only [Except.ok.injEq] at hrun
        rw [← hrun]
        simp [hdb3, hdb1]
  exact ⟨hdb, by rw [hdb]⟩

/-- Witness for C3: a one-file baseline whose file verifies OK is returned
unchanged. -/
theorem no_auto_update_frame_witness :
    (⟨[Event.verified "a"], [("a", ⟨"d1", 0, 1⟩)], 1, 0, false⟩ : CheckResult).db =
        [("a", ⟨"d1", 0, 1⟩)] ∧
      save_hash_db (⟨[Event.verified "a"], [("a", ⟨"d1", 0, 1⟩)], 1, 0, false⟩ :
          CheckResult).db =
        save_hash_db [("a", ⟨"d1", 0, 1⟩)] :=
  no_auto_update_frame true [("a", ⟨"/r/a", 0, 1⟩)] [("a", ⟨"d1", 0, 1⟩)]
    (fun _ => some "d1") "admin@example.com" _ rfl

/-- C2: for every snapshot and baseline, the new/deleted/common partitions
are pairwise disjoint and together cover exactly the union of the snapshot
keys and the baseline keys. -/
theorem partition_disjoint_and_covers (S : Snapshot) (B : Db) (k : String) :
    ¬(k ∈ onlyInSnapshot S B ∧ k ∈ onlyInBaseline S B) ∧
    ¬(k ∈ onlyInSnapshot S B ∧ k ∈ inBoth S B) ∧
    ¬(k ∈ onlyInBaseline S B ∧ k ∈ inBoth S B) ∧
    ((k ∈ onlyInSnapshot S B ∨ k ∈ onlyInBaseline S B ∨ k ∈ inBoth S B) ↔
      (k ∈ S.map Prod.fst ∨ k ∈ B.map Prod.fst)) := by
  have h1 : k ∈ onlyInSnapshot S B ↔ (k ∈ S.map Prod.fst ∧ k ∉ B.map Prod.fst) := by
    simp [onlyInSnapshot, List.mem_filter, Option.isNone_iff_eq_none, dictLookup_eq_none]
  have h2 : k ∈ onlyInBaseline S B ↔ (k ∈ B.map Prod.fst ∧ k ∉ S.map Prod.fst) := by
    simp [onlyInBaseline, List.mem_filter, Option.isNone_iff_eq_none, dictLookup_eq_none]
  have h3 : k ∈ inBoth S B ↔ (k ∈ S.map Prod.fst ∧ k ∈ B.map Prod.fst) := by
    simp [inBoth, List.mem_filter, dictLookup_isSome]
  rw [h1, h2, h3]
  tauto

theorem relEvents_append (rel : String) (a b : List Event) :
    relEvents rel (a ++ b) = relEvents rel a ++ relEvents rel b :=
  List.filter_append a b

theorem relEvents_cons (rel : String) (ev : Event) (E : List Event) :
    relEvents rel (ev :: E) =
      if evRel ev = rel then ev :: relEvents rel E else relEvents rel E := by
  by_cases h : evRel ev = rel <;> simp [relEvents, List.filter_cons, h]

theorem cuCount_append (a b : List Event) : cuCount (a ++ b) = cuCount a + cuCount b := by
  simp [cuCount, List.filter_append]

theorem classifCount_eq (rel : String) (E : List Event) :
    classifCount rel E = ((relEvents rel E).filter isClassification).length := by
  simp [classifCount, relEvents, List.filter_filter]

theorem alertBody_mentions_baseline (rel bh ch : String) :
    mentions (alertBody rel bh ch) bh := by
  refine ⟨("File " ++ rel ++ " changed.\nBaseline hash: ").data,
    ("\nCurrent hash: " ++ ch).data, ?_⟩
  simp [alertBody, String.data_append]

theorem alertBody_mentions_current (rel bh ch : String) :
    mentions (alertBody rel bh ch) ch := by
  refine ⟨("File " ++ rel ++ " changed.\nBaseline hash: " ++ bh ++ "\nCurrent hash: ").data,
    [], ?_⟩
  simp [alertBody, String.data_append]

theorem newFilePass_keeps_entry (rh : String → Option String) (auto : Bool) :
    ∀ (S : Snapshot) (db : Db) (rel : String) (entry : Entry) (E : List Event)
      (db2 : Db) (a : Bool),
      dictLookup db rel = some entry →
      newFilePass rh auto S db = .ok (E, db2, a) →
      dictLookup db2 rel = some entry ∧ relEvents rel E = [] := by
  intro S
  induction S with
  | nil =>
    intro db rel entry E db2 a hin h
    simp [newFilePass] at h
    obtain ⟨hE, hdb, ha⟩ := h
    subst hE
    subst hdb
    exact ⟨hin, rfl⟩
  | cons p rest ih =>
    obtain ⟨r, m⟩ := p
    intro db rel entry E db2 a hin h
    simp only [newFilePass] at h
    split at h
    · exact ih db rel entry E db2 a hin h
    · rename_i hnone
      split at h
      · exact absurd h (by simp)
      · rename_i hcur hh
        split at h
        · exact absurd h (by simp)
        · rename_i t evs2 db2x a2 hrec
          have hrne : r ≠ rel := by
            intro he
            rw [he, hin] at hnone
            simp at hnone
          have hin1 :
              dictLookup (if auto then dictInsert db r ⟨hcur, m.mtime, m.size⟩ else db)
                rel = some entry := by
            cases auto <;> simp [dictLookup_insert, hrne, hin]
          obtain ⟨hdb2, hevs⟩ := ih _ rel entry _ _ _ hin1 hrec
          simp only [Except.ok.injEq, Prod.mk.injEq] at h
          obtain ⟨hE, hdb, _⟩ := h
          subst hE
          subst hdb
          refine ⟨hdb2, ?_⟩
          cases auto <;>
            simp [List.cons_append, List.nil_append, relEvents_cons, evRel, hrne, hevs]

theorem deletedPass_keeps (auto : Bool) :
    ∀ (D : List String) (db : Db) (rel : String) (entry : Entry),
      (∀ f ∈ D, f ≠ rel) →
      dictLookup db rel = some entry →
      dictLookup (deletedPass auto D db).2 rel = some entry ∧
        relEvents rel (deletedPass auto D db).1 = [] := by
  intro D
  induction D with
  | nil =>
    intro db rel entry _ hin
    simpa [deletedPass, relEvents] using hin
  | cons f rest ih =>
    intro db rel entry hne hin
    have hf : f ≠ rel := hne f (by simp)
    have hin1 : dictLookup (if auto then dictRemove db f else db) rel = some entry := by
      cases auto <;> simp [dictLookup_remove_ne db f rel (Ne.symm hf), hin]
    have hrest := ih (if auto then dictRemove db f else db) rel entry
      (fun g hg => hne g (by simp [hg])) hin1
    rcases hd : deletedPass auto rest (if auto then dictRemove db f else db) with ⟨E2, db2⟩
    rw [hd] at hrest
    simp only [deletedPass, hd]
    refine ⟨hrest.1, ?_⟩
    cases auto <;>
      simp [List.cons_append, List.nil_append, relEvents_cons, evRel, hf, hrest.2]

theorem verifyPass_not_in_snapshot (rh : String → Option String) (auto : Bool)
    (toA : String) :
    ∀ (S : Snapshot) (db : Db) (rel : String) (E : List Event) (db2 : Db)
      (s c : Nat) (a : Bool),
      dictLookup S rel = none →
      verifyPass rh auto toA S db = (E, db2, s, c, a) →
      dictLookup db2 rel = dictLookup db rel ∧ relEvents rel E = [] := by
  intro S
  induction S with
  | nil =>
    intro db rel E db2 s c a hS h
    simp [verifyPass] at h
    obtain ⟨hE, hdb, _⟩ := h
    subst hE
    subst hdb
    exact ⟨rfl, rfl⟩
  | cons p rest ih =>
    obtain ⟨r, m⟩ := p
    intro db rel E db2 s c a hS h
    have hrrel : ¬ r = rel := by
      intro he
      simp only [dictLookup, if_pos he] at hS
      exact absurd hS (by simp)
    have hSrest : dictLookup rest rel = none := by
      simpa only [dictLookup, if_neg hrrel] using hS
    cases hl : dictLookup db r with
    | none =>
      simp only [verifyPass, hl] at h
      exact ih db rel E db2 s c a hSrest h
    | some entry =>
      cases hrh : rh m.path with
      | none =>
        rcases hrec : verifyPass rh auto toA rest db with ⟨evs, db2x, sx, cx, ax⟩
        simp only [verifyPass, hl, hrh, hrec, Prod.mk.injEq] at h
        obtain ⟨hE, hdb, hs, hc, ha⟩ := h
        obtain ⟨hres1, hres2⟩ := ih db rel evs db2x sx cx ax hSrest hrec
        subst hE
        subst hdb
        exact ⟨hres1, by simp [relEvents_cons, evRel, hrrel, hres2]⟩
      | some curH =>
        by_cases hcm : curH = entry.hash
        · rcases hrec : verifyPass rh auto toA rest db with ⟨evs, db2x, sx, cx, ax⟩
          simp only [verifyPass, hl, hrh, if_pos hcm, hrec, Prod.mk.injEq] at h
          obtain ⟨hE, hdb, hs, hc, ha⟩ := h
          obtain ⟨hres1, hres2⟩ := ih db rel evs db2x sx cx ax hSrest hrec
          subst hE
          subst hdb
          exact ⟨hres1, by simp [relEvents_cons, evRel, hrrel, hres2]⟩
        · rcases hrec : verifyPass rh auto toA rest
              (if auto then dictInsert db r ⟨curH, m.mtime, m.size⟩ else db) with
            ⟨evs, db2x, sx, cx, ax⟩
          simp only [verifyPass, hl, hrh, if_neg hcm, hrec, Prod.mk.injEq] at h
          obtain ⟨hE, hdb, hs, hc, ha⟩ := h
          have hpre :
              dictLookup (if auto then dictInsert db r ⟨curH, m.mtime, m.size⟩ else db)
                rel = dictLookup db rel := by
            cases auto <;> simp [dictLookup_insert, hrrel]
          obtain ⟨hres1, hres2⟩ := ih _ rel evs db2x sx cx ax hSrest hrec
          subst hE
          subst hdb
          refine ⟨hres1.trans hpre, ?_⟩
          cases auto <;>
            simp [List.cons_append, relEvents_cons, evRel, hrrel, hres2]

theorem verifyPass_unreadable (rh : String → Option String) (auto : Bool)
    (toA : String) :
    ∀ (S : Snapshot) (db : Db) (rel : String) (meta : Meta) (entry : Entry)
      (E : List Event) (db2 : Db) (s c : Nat) (a : Bool),
      dictLookup S rel = some meta → (S.map Prod.fst).Nodup →
      dictLookup db rel = some entry → rh meta.path = none →
      verifyPass rh auto toA S db = (E, db2, s, c, a) →
      relEvents rel E = [Event.unreadable rel] ∧ dictLookup db2 rel = some entry := by
  intro S
  induction S with
  | nil =>
    intro db rel meta entry E db2 s c a hS _ _ _ _
    exact absurd hS (by simp [dictLookup])
  | cons p rest ih =>
    obtain ⟨r, m⟩ := p
    intro db rel meta entry E db2 s c a hS hnd hin hrh h
    by_cases hrr : r = rel
    · subst hrr
      have hm : m = meta := by
        simpa [dictLookup] using hS
      subst hm
      have hSrest : dictLookup rest r = none := by
        rw [dictLookup_eq_none]
        have hx := hnd
        simp only [List.map_cons, List.nodup_cons] at hx
        exact hx.1
      rcases hrec : verifyPass rh auto toA rest db with ⟨evs, db2x, sx, cx, ax⟩
      simp only [verifyPass, hin, hrh, hrec, Prod.mk.injEq] at h
      obtain ⟨hE, hdb, hs, hc, ha⟩ := h
      obtain ⟨hres1, hres2⟩ :=
        verifyPass_not_in_snapshot rh auto toA rest db r evs db2x sx cx ax hSrest hrec
      subst hE
      subst hdb
      exact ⟨by simp [relEvents_cons, evRel, hres2], hres1.trans hin⟩
    · have hSrest : dictLookup rest rel = some meta := by
        simpa only [dictLookup, if_neg hrr] using hS
      have hndrest : (rest.map Prod.fst).Nodup := by
        have hx := hnd
        simp only [List.map_cons, List.nodup_cons] at hx
        exact hx.2
      cases hl : dictLookup db r with
      | none =>
        simp only [verifyPass, hl] at h
        exact ih db rel meta entry E db2 s c a hSrest hndrest hin hrh h
      | some entryR =>
        cases hrhr : rh m.path with
        | none =>
          rcases hrec : verifyPass rh auto toA rest db with ⟨evs, db2x, sx, cx, ax⟩
          simp only [verifyPass, hl, hrhr, hrec, Prod.mk.injEq] at h
          obtain ⟨hE, hdb, hs, hc, ha⟩ := h
          obtain ⟨hres1, hres2⟩ :=
            ih db rel meta entry evs db2x sx cx ax hSrest hndrest hin hrh hrec
          subst hE
          subst hdb
          exact ⟨by simp [relEvents_cons, evRel, hrr, hres1], hres2⟩
        | some curH =>
          by_cases hcm : curH = entryR.hash
          · rcases hrec : verifyPass rh auto toA rest db with ⟨evs, db2x, sx, cx, ax⟩
            simp only [verifyPass, hl, hrhr, if_pos hcm, hrec, Prod.mk.injEq] at h
            obtain ⟨hE, hdb, hs, hc, ha⟩ := h
            obtain ⟨hres1, hres2⟩ :=
              ih db rel meta entry evs db2x sx cx ax hSrest hndrest hin hrh hrec
            subst hE
            subst hdb
            exact ⟨by simp [relEvents_cons, evRel, hrr, hres1], hres2⟩
          · have hin1 :
                dictLookup (if auto then dictInsert db r ⟨curH, m.mtime, m.size⟩ else db)
                  rel = some entry := by
              cases auto <;> simp [dictLookup_insert, hrr, hin]
            rcases hrec : verifyPass rh auto toA rest
                (if auto then dictInsert db r ⟨curH, m.mtime, m.size⟩ else db) with
              ⟨evs, db2x, sx, cx, ax⟩
            simp only [verifyPass, hl, hrhr, if_neg hcm, hrec, Prod.mk.injEq] at h
            obtain ⟨hE, hdb, hs, hc, ha⟩ := h
            obtain ⟨hres1, hres2⟩ :=
              ih _ rel meta entry evs db2x sx cx ax hSrest hndrest hin1 hrh hrec
            subst hE
            subst hdb
            refine ⟨?_, hres2⟩
            cases auto <;>
              simp [List.cons_append, relEvents_cons, evRel, hrr, hres1]


theorem verifyPass_corrupted (rh : String → Option String) (auto : Bool)
    (toA : String) :
    ∀ (S : Snapshot) (db : Db) (rel : String) (meta : Meta) (entry : Entry)
      (E : List Event) (db2 : Db) (s c : Nat) (a : Bool) (curH : String),
      dictLookup S rel = some meta → (S.map Prod.fst).Nodup →
      dictLookup db rel = some entry →
      rh meta.path = some curH → curH ≠ entry.hash →
      verifyPass rh auto toA S db = (E, db2, s, c, a) →
      relEvents rel E =
        Event.corrupted rel ::
          Event.notified rel (alertSubject rel) (alertBody rel entry.hash curH) toA ::
          (if auto then [Event.healed rel] else []) := by
  intro S
  induction S with
  | nil =>
    intro db rel meta entry E db2 s c a curH hS _ _ _ _ _
    exact absurd hS (by simp [dictLookup])
  | cons p rest ih =>
    obtain ⟨r, m⟩ := p
    intro db rel meta entry E db2 s c a curH hS hnd hin hrh hcm h
    by_cases hrr : r = rel
    · subst hrr
      have hm : m = meta := by
        simpa [dictLookup] using hS
      subst hm
      have hSrest : dictLookup rest r = none := by
        rw [dictLookup_eq_none]
        have hx := hnd
        simp only [List.map_cons, List.nodup_cons] at hx
        exact hx.1
      rcases hrec : verifyPass rh auto toA rest
          (if auto then dictInsert db r ⟨curH, m.mtime, m.size⟩ else db) with
        ⟨evs, db2x, sx, cx, ax⟩
      simp only [verifyPass, hin, hrh, if_neg hcm, hrec, Prod.mk.injEq] at h
      obtain ⟨hE, hdb, hs, hc, ha⟩ := h
      obtain ⟨hres1, hres2⟩ :=
        verifyPass_not_in_snapshot rh auto toA rest _ r evs db2x sx cx ax hSrest hrec
      subst hE
      cases auto <;>
        simp [List.cons_append, relEvents_cons, evRel, hres2]
    · have hSrest : dictLookup rest rel = some meta := by
        simpa only [dictLookup, if_neg hrr] using hS
      have hndrest : (rest.map Prod.fst).Nodup := by
        have hx := hnd
        simp only [List.map_cons, List.nodup_cons] at hx
        exact hx.2
      cases hl : dictLookup db r with
      | none =>
        simp only [verifyPass, hl] at h
        exact ih db rel meta entry E db2 s c a curH hSrest hndrest hin hrh hcm h
      | some entryR =>
        cases hrhr : rh m.path with
        | none =>
          rcases hrec : verifyPass rh auto toA rest db with ⟨evs, db2x, sx, cx, ax⟩
          simp only [verifyPass, hl, hrhr, hrec, Prod.mk.injEq] at h
          obtain ⟨hE, hdb, hs, hc, ha⟩ := h
          have hres :=
            ih db rel meta entry evs db2x sx cx ax curH hSrest hndrest hin hrh hcm hrec
          subst hE
          simp [relEvents_cons, evRel, hrr, hres]
        | some curHR =>
          by_cases hcmr : curHR = entryR.hash
          · rcases hrec : verifyPass rh auto toA rest db with ⟨evs, db2x, sx, cx, ax⟩
            simp only [verifyPass, hl, hrhr, if_pos hcmr, hrec, Prod.mk.injEq] at h
            obtain ⟨hE, hdb, hs, hc, ha⟩ := h
            have hres :=
              ih db rel meta entry evs db2x sx cx ax curH hSrest hndrest hin hrh hcm hrec
            subst hE
            simp [relEvents_cons, evRel, hrr, hres]
          · have hin1 :
                dictLookup (if auto then dictInsert db r ⟨curHR, m.mtime, m.size⟩ else db)
                  rel = some entry := by
              cases auto <;> simp [dictLookup_insert, hrr, hin]
            rcases hrec : verifyPass rh auto toA rest
                (if auto then dictInsert db r ⟨curHR, m.mtime, m.size⟩ else db) with
              ⟨evs, db2x, sx, cx, ax⟩
            simp only [verifyPass, hl, hrhr, if_neg hcmr, hrec, Prod.mk.injEq] at h
            obtain ⟨hE, hdb, hs, hc, ha⟩ := h
            have hres :=
              ih _ rel meta entry evs db2x sx cx ax curH hSrest hndrest hin1 hrh hcm hrec
            subst hE
            cases auto <;>
              simp [List.cons_append, relEvents_cons, evRel, hrr, hres]


theorem newFilePass_no_cu (rh : String → Option String) (auto : Bool) :
    ∀ (S : Snapshot) (db : Db) (E : List Event) (db2 : Db) (a : Bool),
      newFilePass rh auto S db = .ok (E, db2, a) → cuCount E = 0 := by
  intro S
  induction S with
  | nil =>
    intro db E db2 a h
    simp [newFilePass] at h
    obtain ⟨hE, _, _⟩ := h
    subst hE
    rfl
  | cons p rest ih =>
    obtain ⟨r, m⟩ := p
    intro db E db2 a h
    simp only [newFilePass] at h
    split at h
    · exact ih db E db2 a h
    · split at h
      · exact absurd h (by simp)
      · split at h
        · exact absurd h (by simp)
        · rename_i t evs2 db2x a2 hrec
          simp only [Except.ok.injEq, Prod.mk.injEq] at h
          obtain ⟨hE, _, _⟩ := h
          subst hE
          have := ih _ evs2 db2x a2 hrec
          cases auto <;> simp [cuCount, List.filter_cons, List.filter_append] at this ⊢ <;>
            simpa [cuCount] using this

theorem deletedPass_no_cu (auto : Bool) :
    ∀ (D : List String) (db : Db), cuCount (deletedPass auto D db).1 = 0 := by
  intro D
  induction D with
  | nil => intro db; simp [deletedPass, cuCount]
  | cons f rest ih =>
    intro db
    rcases hd : deletedPass auto rest (if auto then dictRemove db f else db) with ⟨E2, db2⟩
    have := ih (if auto then dictRemove db f else db)
    rw [hd] at this
    simp only [deletedPass, hd]
    cases auto <;> simp [cuCount, List.filter_cons, List.filter_append] at this ⊢ <;>
      simpa [cuCount] using this

theorem verifyPass_cu (rh : String → Option String) (auto : Bool) (toA : String) :
    ∀ (S : Snapshot) (db : Db) (E : List Event) (db2 : Db) (s c : Nat) (a : Bool),
      verifyPass rh auto toA S db = (E, db2, s, c, a) → c = cuCount E := by
  intro S
  induction S with
  | nil =>
    intro db E db2 s c a h
    simp [verifyPass] at h
    obtain ⟨hE, _, _, hc, _⟩ := h
    subst hE
    subst hc
    rfl
  | cons p rest ih =>
    obtain ⟨r, m⟩ := p
    intro db E db2 s c a h
    cases hl : dictLookup db r with
    | none =>
      simp only [verifyPass, hl] at h
      exact ih db E db2 s c a h
    | some entry =>
      cases hrh : rh m.path with
      | none =>
        rcases hrec : verifyPass rh auto toA rest db with ⟨evs, db2x, sx, cx, ax⟩
        simp only [verifyPass, hl, hrh, hrec, Prod.mk.injEq] at h
        obtain ⟨hE, _, _, hc, _⟩ := h
        subst hE
        subst hc
        have := ih db evs db2x sx cx ax hrec
        simp [cuCount, List.filter_cons] at this ⊢
        simpa [cuCount] using this
      | some curH =>
        by_cases hcm : curH = entry.hash
        · rcases hrec : verifyPass rh auto toA rest db with ⟨evs, db2x, sx, cx, ax⟩
          simp only [verifyPass, hl, hrh, if_pos hcm, hrec, Prod.mk.injEq] at h
          obtain ⟨hE, _, _, hc, _⟩ := h
          subst hE
          subst hc
          have := ih db evs db2x sx cx ax hrec
          simp [cuCount, List.filter_cons] at this ⊢
          simpa [cuCount] using this
        · rcases hrec : verifyPass rh auto toA rest
              (if auto then dictInsert db r ⟨curH, m.mtime, m.size⟩ else db) with
            ⟨evs, db2x, sx, cx, ax⟩
          simp only [verifyPass, hl, hrh, if_neg hcm, hrec, Prod.mk.injEq] at h
          obtain ⟨hE, _, _, hc, _⟩ := h
          subst hE
          subst hc
          have := ih _ evs db2x sx cx ax hrec
          cases auto <;>
            simp [cuCount, List.filter_cons, List.filter_append] at this ⊢ <;>
            simpa [cuCount] using this

theorem perform_check_ok_decompose (isDir : Bool) (S : Snapshot) (B : Db)
    (rh : String → Option String) (auto : Bool) (toA : String) (res : CheckResult)
    (hrun : perform_check isDir S B rh auto toA = .ok res) :
    ∃ E1 db1 a1 E2 db2 E3 db3 s c a3,
      newFilePass rh auto S B = .ok (E1, db1, a1) ∧
      deletedPass auto ((db1.map Prod.fst).filter (fun f => (dictLookup S f).isNone))
          db1 = (E2, db2) ∧
      verifyPass rh auto toA S db2 = (E3, db3, s, c, a3) ∧
      res.events = E1 ++ E2 ++ E3 ∧ res.db = db3 ∧ res.safe = s ∧
      res.corrupted = c := by
  simp only [perform_check] at hrun
  split at hrun
  · exact absurd hrun (by simp)
  · cases hnf : newFilePass rh auto S B with
    | error e =>
      rw [hnf] at hrun
      exact absurd hrun (by simp)
    | ok t =>
      obtain ⟨E1, db1, a1⟩ := t
      simp only [hnf] at hrun
      rcases hd : deletedPass auto
          ((db1.map Prod.fst).filter (fun f => (dictLookup S f).isNone)) db1 with
        ⟨E2, db2⟩
      rw [hd] at hrun
      rcases hv : verifyPass rh auto toA S db2 with ⟨E3, db3, s3, c3, a3⟩
      simp only [hv] at hrun
      simp only [Except.ok.injEq] at hrun
      refine ⟨E1, db1, a1, E2, db2, E3, db3, s3, c3, a3, rfl, hd, hv, ?_, ?_, ?_, ?_⟩ <;>
        rw [← hrun]


theorem perform_check_cu (isDir : Bool) (S : Snapshot) (B : Db)
    (rh : String → Option String) (auto : Bool) (toA : String) (res : CheckResult)
    (hrun : perform_check isDir S B rh auto toA = .ok res) :
    res.corrupted = cuCount res.events := by
  obtain ⟨E1, db1, a1, E2, db2, E3, db3, s, c, a3, hnf, hd, hv, hev, _, _, hcorr⟩ :=
    perform_check_ok_decompose isDir S B rh auto toA res hrun
  have h1 : cuCount E1 = 0 := newFilePass_no_cu rh auto S B E1 db1 a1 hnf
  have h2 : cuCount E2 = 0 := by
    have := deletedPass_no_cu auto
      ((db1.map Prod.fst).filter (fun f => (dictLookup S f).isNone)) db1
    rw [hd] at this
    exact this
  have h3 : c = cuCount E3 := verifyPass_cu rh auto toA S db2 E3 db3 s c a3 hv
  rw [hev, hcorr, h3, cuCount_append, cuCount_append, h1, h2]
  omega

theorem deleted_list_ne (S : Snapshot) (db1 : Db) (rel : String) (meta : Meta)
    (hS : dictLookup S rel = some meta) :
    ∀ f ∈ (db1.map Prod.fst).filter (fun f => (dictLookup S f).isNone), f ≠ rel := by
  intro f hf he
  subst he
  rw [List.mem_filter] at hf
  rw [hS] at hf
  simp at hf

/-- C4: a path present in both snapshot and baseline whose current digest
differs from the baseline digest gets, in one completed cycle, exactly one
`corrupted` classification, exactly one notifier call whose body mentions
both digests, and one unit of the corrupted counter (the counter equals the
number of corrupted/unreadable classifications of the cycle). -/
theorem corrupted_exactly_one_alert (isDir : Bool) (S : Snapshot) (B : Db)
    (rh : String → Option String) (auto : Bool) (toA : String) (res : CheckResult)
    (rel : String) (meta : Meta) (entry : Entry) (curH : String)
    (hS : dictLookup S rel = some meta) (hnd : (S.map Prod.fst).Nodup)
    (hB : dictLookup B rel = some entry)
    (hrh : rh meta.path = some curH) (hne : curH ≠ entry.hash)
    (hrun : perform_check isDir S B rh auto toA = .ok res) :
    relEvents rel res.events =
      Event.corrupted rel ::
        Event.notified rel (alertSubject rel) (alertBody rel entry.hash curH) toA ::
        (if auto then [Event.healed rel] else []) ∧
    classifCount rel res.events = 1 ∧
    res.corrupted = cuCount res.events ∧
    mentions (alertBody rel entry.hash curH) entry.hash ∧
    mentions (alertBody rel entry.hash curH) curH := by
  obtain ⟨E1, db1, a1, E2, db2, E3, db3, s, c, a3, hnf, hd, hv, hev, _, _, _⟩ :=
    perform_check_ok_decompose isDir S B rh auto toA res hrun
  obtain ⟨hin1, hE1⟩ :=
    newFilePass_keeps_entry rh auto S B rel entry E1 db1 a1 hB hnf
  have hk := deletedPass_keeps auto
    ((db1.map Prod.fst).filter (fun f => (dictLookup S f).isNone)) db1 rel entry
    (deleted_list_ne S db1 rel meta hS) hin1
  rw [hd] at hk
  obtain ⟨hin2, hE2⟩ := hk
  have hE3 := verifyPass_corrupted rh auto toA S db2 rel meta entry E3 db3 s c a3
    curH hS hnd hin2 hrh hne hv
  have hrel : relEvents rel res.events =
      Event.corrupted rel ::
        Event.notified rel (alertSubject rel) (alertBody rel entry.hash curH) toA ::
        (if auto then [Event.healed rel] else []) := by
    rw [hev, relEvents_append, relEvents_append, hE1, hE2, hE3]
    simp
  refine ⟨hrel, ?_, perform_check_cu isDir S B rh auto toA res hrun,
    alertBody_mentions_baseline rel entry.hash curH,
    alertBody_mentions_current rel entry.hash curH⟩
  rw [classifCount_eq, hrel]
  cases auto <;> simp [isClassification]

/-- Witness for C4: one baselined file whose digest changed from d1 to d2;
auto-update off. -/
theorem corrupted_exactly_one_alert_witness :
    relEvents "a"
        [Event.corrupted "a",
          Event.notified "a" (alertSubject "a") (alertBody "a" "d1" "d2")
            "admin@example.com"] =
      Event.corrupted "a" ::
        Event.notified "a" (alertSubject "a") (alertBody "a" "d1" "d2")
          "admin@example.com" :: (if false then [Event.healed "a"] else []) ∧
    classifCount "a"
        [Event.corrupted "a",
          Event.notified "a" (alertSubject "a") (alertBody "a" "d1" "d2")
            "admin@example.com"] = 1 ∧
    (1 : Nat) = cuCount
        [Event.corrupted "a",
          Event.notified "a" (alertSubject "a") (alertBody "a" "d1" "d2")
            "admin@example.com"] ∧
    mentions (alertBody "a" "d1" "d2") "d1" ∧
    mentions (alertBody "a" "d1" "d2") "d2" :=
  corrupted_exactly_one_alert true [("a", ⟨"/r/a", 0, 1⟩)] [("a", ⟨"d1", 0, 1⟩)]
    (fun _ => some "d2") false "admin@example.com"
    ⟨[Event.corrupted "a",
        Event.notified "a" (alertSubject "a") (alertBody "a" "d1" "d2")
          "admin@example.com"],
      [("a", ⟨"d1", 0, 1⟩)], 0, 1, true⟩
    "a" ⟨"/r/a", 0, 1⟩ ⟨"d1", 0, 1⟩ "d2" rfl (by decide) rfl rfl (by decide) rfl


/-- Counterexample to C5 as stated: a read failure while hashing a NEW file
(monitor.py line 155, outside any try/except) aborts the whole check cycle,
so it is not true that a failure to read a file while hashing never aborts
the cycle. -/
theorem unreadable_new_file_aborts_cycle :
    perform_check true [("a", ⟨"/root/a", 0, 1⟩)] [] (fun _ => none) false
      "admin@example.com" = .error (.readErrorNew "a") := rfl

/-- C5 (amended): for a path present in BOTH snapshot and baseline, a read
failure while hashing yields exactly one `unreadable` classification,
counts one unit of the corrupted counter, leaves the path's baseline entry
untouched, and the cycle still completes for the other paths. -/
theorem unreadable_in_both_scoped (isDir : Bool) (S : Snapshot) (B : Db)
    (rh : String → Option String) (auto : Bool) (toA : String) (res : CheckResult)
    (rel : String) (meta : Meta) (entry : Entry)
    (hS : dictLookup S rel = some meta) (hnd : (S.map Prod.fst).Nodup)
    (hB : dictLookup B rel = some entry) (hrh : rh meta.path = none)
    (hrun : perform_check isDir S B rh auto toA = .ok res) :
    relEvents rel res.events = [Event.unreadable rel] ∧
    classifCount rel res.events = 1 ∧
    dictLookup res.db rel = some entry ∧
    res.corrupted = cuCount res.events := by
  obtain ⟨E1, db1, a1, E2, db2, E3, db3, s, c, a3, hnf, hd, hv, hev, hdb, _, _⟩ :=
    perform_check_ok_decompose isDir S B rh auto toA res hrun
  obtain ⟨hin1, hE1⟩ :=
    newFilePass_keeps_entry rh auto S B rel entry E1 db1 a1 hB hnf
  have hk := deletedPass_keeps auto
    ((db1.map Prod.fst).filter (fun f => (dictLookup S f).isNone)) db1 rel entry
    (deleted_list_ne S db1 rel meta hS) hin1
  rw [hd] at hk
  obtain ⟨hin2, hE2⟩ := hk
  obtain ⟨hE3, hin3⟩ := verifyPass_unreadable rh auto toA S db2 rel meta entry E3
    db3 s c a3 hS hnd hin2 hrh hv
  have hrel : relEvents rel res.events = [Event.unreadable rel] := by
    rw [hev, relEvents_append, relEvents_append, hE1, hE2, hE3]
    simp
  refine ⟨hrel, ?_, ?_, perform_check_cu isDir S B rh auto toA res hrun⟩
  · rw [classifCount_eq, hrel]
    simp [isClassification]
  · rw [hdb]
    exact hin3

/-- Witness for C5 (amended): one baselined file whose read fails. -/
theorem unreadable_in_both_scoped_witness :
    relEvents "a" [Event.unreadable "a"] = [Event.unreadable "a"] ∧
    classifCount "a" [Event.unreadable "a"] = 1 ∧
    dictLookup [("a", (⟨"d1", 0, 1⟩ : Entry))] "a" = some ⟨"d1", 0, 1⟩ ∧
    (1 : Nat) = cuCount [Event.unreadable "a"] :=
  unreadable_in_both_scoped true [("a", ⟨"/r/a", 0, 1⟩)] [("a", ⟨"d1", 0, 1⟩)]
    (fun _ => none) false "admin@example.com"
    ⟨[Event.unreadable "a"], [("a", ⟨"d1", 0, 1⟩)], 0, 1, true⟩
    "a" ⟨"/r/a", 0, 1⟩ ⟨"d1", 0, 1⟩ rfl (by decide) rfl rfl rfl


theorem classifCount_cons (rel : String) (ev : Event) (E : List Event) :
    classifCount rel (ev :: E) =
      (if (isClassification ev && (evRel ev == rel)) = true then 1 else 0) +
        classifCount rel E := by
  by_cases h : (isClassification ev && (evRel ev == rel)) = true <;>
    simp [classifCount, List.filter_cons, h, Nat.add_comm]

theorem classifCount_append (rel : String) (a b : List Event) :
    classifCount rel (a ++ b) = classifCount rel a + classifCount rel b := by
  simp [classifCount, List.filter_append]

theorem map_fst_dictInsert {α : Type} (l : List (String × α)) (k : String) (v : α) :
    (dictInsert l k v).map Prod.fst =
      if (dictLookup l k).isSome then l.map Prod.fst else l.map Prod.fst ++ [k] := by
  induction l with
  | nil => simp [dictInsert, dictLookup]
  | cons p rest ih =>
    obtain ⟨k₁, v₁⟩ := p
    by_cases h : k₁ = k
    · subst h
      simp [dictInsert, dictLookup]
    · simp only [dictInsert, if_neg h, List.map_cons, dictLookup, ih]
      by_cases hl : (dictLookup rest k).isSome <;> simp [hl, h]

theorem nodup_keys_dictInsert {α : Type} (l : List (String × α)) (k : String) (v : α)
    (h : (l.map Prod.fst).Nodup) : ((dictInsert l k v).map Prod.fst).Nodup := by
  rw [map_fst_dictInsert]
  by_cases hl : (dictLookup l k).isSome
  · simp [hl, h]
  · have hk : k ∉ l.map Prod.fst := by
      rw [← dictLookup_isSome] at *
      simpa using hl
    simp only [if_neg hl, List.nodup_append, List.nodup_cons, List.not_mem_nil,
      not_false_iff, List.nodup_nil, and_true, true_and]
    refine ⟨h, ?_⟩
    intro a ha hb
    rw [List.mem_singleton] at hb
    subst hb
    exact hk ha

theorem newFilePass_nodup_keys (rh : String → Option String) (auto : Bool) :
    ∀ (S : Snapshot) (db : Db) (E : List Event) (db2 : Db) (a : Bool),
      (db.map Prod.fst).Nodup →
      newFilePass rh auto S db = .ok (E, db2, a) →
      (db2.map Prod.fst).Nodup := by
  intro S
  induction S with
  | nil =>
    intro db E db2 a hnd h
    simp [newFilePass] at h
    obtain ⟨_, hdb, _⟩ := h
    subst hdb
    exact hnd
  | cons p rest ih =>
    obtain ⟨r, m⟩ := p
    intro db E db2 a hnd h
    simp only [newFilePass] at h
    split at h
    · exact ih db E db2 a hnd h
    · split at h
      · exact absurd h (by simp)
      · rename_i hcur hh
        split at h
        · exact absurd h (by simp)
        · rename_i t evs2 db2x a2 hrec
          simp only [Except.ok.injEq, Prod.mk.injEq] at h
          obtain ⟨_, hdb, _⟩ := h
          subst hdb
          have hnd1 : (((if auto then dictInsert db r ⟨hcur, m.mtime, m.size⟩
              else db) : Db).map Prod.fst).Nodup := by
            cases auto
            · simpa using hnd
            · exact nodup_keys_dictInsert db r ⟨hcur, m.mtime, m.size⟩ hnd
          exact ih _ evs2 db2x a2 hnd1 hrec

theorem deletedPass_lookup_ne (auto : Bool) :
    ∀ (D : List String) (db : Db) (rel : String),
      (∀ f ∈ D, f ≠ rel) →
      dictLookup (deletedPass auto D db).2 rel = dictLookup db rel := by
  intro D
  induction D with
  | nil => intro db rel _; simp [deletedPass]
  | cons f rest ih =>
    intro db rel hne
    have hf : f ≠ rel := hne f (by simp)
    rcases hd : deletedPass auto rest (if auto then dictRemove db f else db) with ⟨E2, db2⟩
    have := ih (if auto then dictRemove db f else db) rel
      (fun g hg => hne g (by simp [hg]))
    rw [hd] at this
    simp only [deletedPass, hd]
    rw [this]
    cases auto <;> simp [dictLookup_remove_ne db f rel (Ne.symm hf)]

theorem deletedPass_classifCount (auto : Bool) :
    ∀ (D : List String) (db : Db) (rel : String),
      D.Nodup →
      classifCount rel (deletedPass auto D db).1 =
        if rel ∈ D then 1 else 0 := by
  intro D
  induction D with
  | nil => intro db rel _; simp [deletedPass, classifCount]
  | cons f rest ih =>
    intro db rel hnd
    rcases hd : deletedPass auto rest (if auto then dictRemove db f else db) with ⟨E2, db2⟩
    have hrest := ih (if auto then dictRemove db f else db) rel (List.nodup_cons.mp hnd).2
    rw [hd] at hrest
    simp only [deletedPass, hd]
    by_cases hf : f = rel
    · subst hf
      have hnotin : f ∉ rest := (List.nodup_cons.mp hnd).1
      rw [if_neg (by simpa using hnotin)] at hrest
      cases auto <;>
        simp [List.cons_append, classifCount_append, classifCount_cons,
          isClassification, evRel, hrest]
    · cases auto <;>
        simp [List.cons_append, classifCount_append, classifCount_cons,
          isClassification, evRel, hf, hrest] <;>
        simp [Ne.symm hf]


theorem newFilePass_classifCount (rh : String → Option String) (auto : Bool) :
    ∀ (S : Snapshot) (db : Db) (rel : String) (E : List Event) (db2 : Db) (a : Bool),
      (S.map Prod.fst).Nodup →
      newFilePass rh auto S db = .ok (E, db2, a) →
      classifCount rel E =
        if (dictLookup S rel).isSome ∧ dictLookup db rel = none then 1 else 0 := by
  intro S
  induction S with
  | nil =>
    intro db rel E db2 a _ h
    simp [newFilePass] at h
    obtain ⟨hE, _, _⟩ := h
    subst hE
    simp [classifCount, dictLookup]
  | cons p rest ih =>
    obtain ⟨r, m⟩ := p
    intro db rel E db2 a hnd h
    have hnotin : r ∉ rest.map Prod.fst := by
      have hx := hnd
      simp only [List.map_cons, List.nodup_cons] at hx
      exact hx.1
    have hndrest : (rest.map Prod.fst).Nodup := by
      have hx := hnd
      simp only [List.map_cons, List.nodup_cons] at hx
      exact hx.2
    have hrestnone : dictLookup rest r = none := (dictLookup_eq_none rest r).mpr hnotin
    simp only [newFilePass] at h
    split at h
    · rename_i hl
      have hres := ih db rel E db2 a hndrest h
      rw [hres]
      by_cases hrr : r = rel
      · subst hrr
        have h2 : ¬ dictLookup db r = none := by
          intro he
          rw [he] at hl
          simp at hl
        simp [dictLookup, hrestnone, h2]
      · simp [dictLookup, hrr]
    · rename_i hl
      have hdbr : dictLookup db r = none := by
        cases hdb : dictLookup db r with
        | none => rfl
        | some v => rw [hdb] at hl; simp at hl
      split at h
      · exact absurd h (by simp)
      · rename_i hcur hh
        split at h
        · exact absurd h (by simp)
        · rename_i t evs2 db2x a2 hrec
          simp only [Except.ok.injEq, Prod.mk.injEq] at h
          obtain ⟨hE, _, _⟩ := h
          subst hE
          by_cases hrr : r = rel
          · subst hrr
            have hres := ih _ r evs2 db2x a2 hndrest hrec
            rw [hrestnone] at hres
            simp only [Option.isSome_none, Bool.false_eq_true, false_and, if_false] at hres
            cases auto <;>
              simp [classifCount_append, classifCount_cons, isClassification, evRel,
                hres, dictLookup, hdbr]
          · have hdb1 : dictLookup ((if auto then
                dictInsert db r ⟨hcur, m.mtime, m.size⟩ else db) : Db) rel =
                dictLookup db rel := by
              cases auto <;> simp [dictLookup_insert, hrr]
            have hres := ih _ rel evs2 db2x a2 hndrest hrec
            rw [hdb1] at hres
            cases auto <;>
              simp [classifCount_append, classifCount_cons, isClassification, evRel,
                hrr, dictLookup, hres]

theorem newFilePass_lookup_isSome (rh : String → Option String) (auto : Bool) :
    ∀ (S : Snapshot) (db : Db) (rel : String) (E : List Event) (db2 : Db) (a : Bool),
      (S.map Prod.fst).Nodup →
      newFilePass rh auto S db = .ok (E, db2, a) →
      (dictLookup db2 rel).isSome =
        ((dictLookup db rel).isSome ||
          (auto && (dictLookup S rel).isSome && (dictLookup db rel).isNone)) := by
  intro S
  induction S with
  | nil =>
    intro db rel E db2 a _ h
    simp [newFilePass] at h
    obtain ⟨_, hdb, _⟩ := h
    subst hdb
    simp [dictLookup]
  | cons p rest ih =>
    obtain ⟨r, m⟩ := p
    intro db rel E db2 a hnd h
    have hnotin : r ∉ rest.map Prod.fst := by
      have hx := hnd
      simp only [List.map_cons, List.nodup_cons] at hx
      exact hx.1
    have hndrest : (rest.map Prod.fst).Nodup := by
      have hx := hnd
      simp only [List.map_cons, List.nodup_cons] at hx
      exact hx.2
    have hrestnone : dictLookup rest r = none := (dictLookup_eq_none rest r).mpr hnotin
    simp only [newFilePass] at h
    split at h
    · rename_i hl
      have hres := ih db rel E db2 a hndrest h
      rw [hres]
      by_cases hrr : r = rel
      · subst hrr
        rw [hrestnone]
        have h2 : (dictLookup db r).isSome = true := hl
        simp [dictLookup, h2]
      · simp [dictLookup, hrr]
    · rename_i hl
      have hdbr : dictLookup db r = none := by
        cases hdb : dictLookup db r with
        | none => rfl
        | some v => rw [hdb] at hl; simp at hl
      split at h
      · exact absurd h (by simp)
      · rename_i hcur hh
        split at h
        · exact absurd h (by simp)
        · rename_i t evs2 db2x a2 hrec
          simp only [Except.ok.injEq, Prod.mk.injEq] at h
          obtain ⟨_, hdb, _⟩ := h
          subst hdb
          have hres := ih _ rel evs2 db2x a2 hndrest hrec
          rw [hres]
          by_cases hrr : r = rel
          · subst hrr
            rw [hrestnone]
            cases auto <;> simp [dictLookup, dictLookup_insert, hdbr]
          · have hdb1 : dictLookup ((if auto then
                dictInsert db r ⟨hcur, m.mtime, m.size⟩ else db) : Db) rel =
                dictLookup db rel := by
              cases auto <;> simp [dictLookup_insert, hrr]
            rw [hdb1]
            simp [dictLookup, hrr]


theorem verifyPass_classifCount (rh : String → Option String) (auto : Bool)
    (toA : String) :
    ∀ (S : Snapshot) (db : Db) (rel : String) (E : List Event) (db2 : Db)
      (s c : Nat) (a : Bool),
      (S.map Prod.fst).Nodup →
      verifyPass rh auto toA S db = (E, db2, s, c, a) →
      classifCount rel E =
        if (dictLookup S rel).isSome ∧ (dictLookup db rel).isSome then 1 else 0 := by
  intro S
  induction S with
  | nil =>
    intro db rel E db2 s c a _ h
    simp [verifyPass] at h
    obtain ⟨hE, _, _, _, _⟩ := h
    subst hE
    simp [classifCount, dictLookup]
  | cons p rest ih =>
    obtain ⟨r, m⟩ := p
    intro db rel E db2 s c a hnd h
    have hnotin : r ∉ rest.map Prod.fst := by
      have hx := hnd
      simp only [List.map_cons, List.nodup_cons] at hx
      exact hx.1
    have hndrest : (rest.map Prod.fst).Nodup := by
      have hx := hnd
      simp only [List.map_cons, List.nodup_cons] at hx
      exact hx.2
    have hrestnone : dictLookup rest r = none := (dictLookup_eq_none rest r).mpr hnotin
    cases hl : dictLookup db r with
    | none =>
      simp only [verifyPass, hl] at h
      have hres := ih db rel E db2 s c a hndrest h
      rw [hres]
      by_cases hrr : r = rel
      · subst hrr
        simp [dictLookup, hrestnone, hl]
      · simp [dictLookup, hrr]
    | some entry =>
      cases hrh : rh m.path with
      | none =>
        rcases hrec : verifyPass rh auto toA rest db with ⟨evs, db2x, sx, cx, ax⟩
        simp only [verifyPass, hl, hrh, hrec, Prod.mk.injEq] at h
        obtain ⟨hE, _, _, _, _⟩ := h
        subst hE
        have hres := ih db rel evs db2x sx cx ax hndrest hrec
        by_cases hrr : r = rel
        · subst hrr
          rw [hrestnone] at hres
          simp only [Option.isSome_none, Bool.false_eq_true, false_and, if_false] at hres
          simp [classifCount_cons, isClassification, evRel, hres, dictLookup, hl]
        · simp [classifCount_cons, isClassification, evRel, hrr, hres, dictLookup]
      | some curH =>
        by_cases hcm : curH = entry.hash
        · rcases hrec : verifyPass rh auto toA rest db with ⟨evs, db2x, sx, cx, ax⟩
          simp only [verifyPass, hl, hrh, if_pos hcm, hrec, Prod.mk.injEq] at h
          obtain ⟨hE, _, _, _, _⟩ := h
          subst hE
          have hres := ih db rel evs db2x sx cx ax hndrest hrec
          by_cases hrr : r = rel
          · subst hrr
            rw [hrestnone] at hres
            simp only [Option.isSome_none, Bool.false_eq_true, false_and, if_false] at hres
            simp [classifCount_cons, isClassification, evRel, hres, dictLookup, hl]
          · simp [classifCount_cons, isClassification, evRel, hrr, hres, dictLookup]
        · rcases hrec : verifyPass rh auto toA rest
              (if auto then dictInsert db r ⟨curH, m.mtime, m.size⟩ else db) with
            ⟨evs, db2x, sx, cx, ax⟩
          simp only [verifyPass, hl, hrh, if_neg hcm, hrec, Prod.mk.injEq] at h
          obtain ⟨hE, _, _, _, _⟩ := h
          subst hE
          by_cases hrr : r = rel
          · subst hrr
            have hres := ih _ r evs db2x sx cx ax hndrest hrec
            rw [hrestnone] at hres
            simp only [Option.isSome_none, Bool.false_eq_true, false_and, if_false] at hres
            cases auto <;>
              simp [classifCount_append, classifCount_cons, isClassification, evRel,
                hres, dictLookup, hl]
          · have hdb1 : dictLookup ((if auto then
                dictInsert db r ⟨curH, m.mtime, m.size⟩ else db) : Db) rel =
                dictLookup db rel := by
              cases auto <;> simp [dictLookup_insert, hrr]
            have hres := ih _ rel evs db2x sx cx ax hndrest hrec
            rw [hdb1] at hres
            cases auto <;>
              simp [classifCount_append, classifCount_cons, isClassification, evRel,
                hrr, hres, dictLookup]


/-- C1 (amended): complete per-path classification count of one completed
cycle. With auto-update off every path is classified at most once (exactly
once when it is in the snapshot or the baseline). With auto-update on, a
new file that the cycle inserts into the baseline is classified twice: the
new-file pass emits `newFile` and the verify pass then finds it in the
mutated baseline; every other path is classified exactly once. -/
theorem classification_count_characterization (isDir : Bool) (S : Snapshot)
    (B : Db) (rh : String → Option String) (auto : Bool) (toA : String)
    (res : CheckResult) (rel : String)
    (hndS : (S.map Prod.fst).Nodup) (hndB : (B.map Prod.fst).Nodup)
    (hrun : perform_check isDir S B rh auto toA = .ok res) :
    classifCount rel res.events =
      if (dictLookup S rel).isSome then
        (if (dictLookup B rel).isSome then 1 else if auto then 2 else 1)
      else (if (dictLookup B rel).isSome then 1 else 0) := by
  obtain ⟨E1, db1, a1, E2, db2, E3, db3, s, c, a3, hnf, hd, hv, hev, _, _, _⟩ :=
    perform_check_ok_decompose isDir S B rh auto toA res hrun
  have h1 := newFilePass_classifCount rh auto S B rel E1 db1 a1 hndS hnf
  have hnd1 : (db1.map Prod.fst).Nodup :=
    newFilePass_nodup_keys rh auto S B E1 db1 a1 hndB hnf
  have hDnodup : ((db1.map Prod.fst).filter
      (fun f => (dictLookup S f).isNone)).Nodup := hnd1.filter _
  have h2 := deletedPass_classifCount auto
    ((db1.map Prod.fst).filter (fun f => (dictLookup S f).isNone)) db1 rel hDnodup
  rw [hd] at h2
  have h3 := verifyPass_classifCount rh auto toA S db2 rel E3 db3 s c a3 hndS hv
  have hisSome1 := newFilePass_lookup_isSome rh auto S B rel E1 db1 a1 hndS hnf
  rw [hev, classifCount_append, classifCount_append, h1, h2, h3]
  by_cases hS : (dictLookup S rel).isSome = true
  · obtain ⟨meta, hmeta⟩ : ∃ m, dictLookup S rel = some m :=
      Option.isSome_iff_exists.mp hS
    have hnotD : rel ∉ (db1.map Prod.fst).filter
        (fun f => (dictLookup S f).isNone) := by
      intro hm
      rw [List.mem_filter, hmeta] at hm
      simp at hm
    have hlook2 := deletedPass_lookup_ne auto
      ((db1.map Prod.fst).filter (fun f => (dictLookup S f).isNone)) db1 rel
      (deleted_list_ne S db1 rel meta hmeta)
    rw [hd] at hlook2
    rw [if_neg hnotD]
    by_cases hB : (dictLookup B rel).isSome = true
    · have hBn : ¬ dictLookup B rel = none := by
        intro he
        rw [he] at hB
        simp at hB
      have h2some : (dictLookup db2 rel).isSome = true := by
        rw [hlook2, hisSome1]
        simp [hB]
      simp [hS, hB, hBn, h2some]
    · have hBnone : dictLookup B rel = none := by
        cases hx : dictLookup B rel with
        | none => rfl
        | some v => rw [hx] at hB; simp at hB
      have hd2 : (dictLookup db2 rel).isSome = auto := by
        rw [hlook2, hisSome1, hBnone]
        simp [hS]
      cases auto <;> simp [hS, hB, hBnone, hd2]
  · have hSnone : dictLookup S rel = none := by
      cases hx : dictLookup S rel with
      | none => rfl
      | some v => rw [hx] at hS; simp at hS
    have hmemD : rel ∈ (db1.map Prod.fst).filter
        (fun f => (dictLookup S f).isNone) ↔ (dictLookup db1 rel).isSome = true := by
      rw [List.mem_filter, ← dictLookup_isSome]
      simp [hSnone]
    have hb1 : (dictLookup db1 rel).isSome = (dictLookup B rel).isSome := by
      rw [hisSome1, hSnone]
      simp
    by_cases hB : (dictLookup B rel).isSome = true
    · have hmem : rel ∈ (db1.map Prod.fst).filter
          (fun f => (dictLookup S f).isNone) := by
        rw [hmemD, hb1]
        exact hB
      simp [hS, hB, hmem, hSnone]
    · have hmem : rel ∉ (db1.map Prod.fst).filter
          (fun f => (dictLookup S f).isNone) := by
        intro hm
        exact hB (by rw [← hb1]; exact hmemD.mp hm)
      simp [hS, hB, hmem, hSnone]


/-- Counterexample to C1 as stated: with auto-update on, a new file that the
cycle inserts into the baseline is classified twice in the same cycle — the
new-file pass emits `newFile`, and the verify pass (monitor.py line 171)
then finds the path in the already-mutated db and emits `verified`. -/
theorem new_file_double_classification :
    perform_check true [("a", ⟨"/r/a", 0, 1⟩)] [] (fun _ => some "h") true
        "admin@example.com" =
      .ok ⟨[Event.newFile "a", Event.addedToBaseline "a", Event.verified "a"],
        [("a", ⟨"h", 0, 1⟩)], 1, 0, true⟩ ∧
    classifCount "a"
      [Event.newFile "a", Event.addedToBaseline "a", Event.verified "a"] = 2 :=
  ⟨rfl, rfl⟩

/-- Witness for C1 (amended) at the double-classification input. -/
theorem classification_count_characterization_witness :
    classifCount "a"
        [Event.newFile "a", Event.addedToBaseline "a", Event.verified "a"] =
      if (dictLookup [("a", (⟨"/r/a", 0, 1⟩ : Meta))] "a").isSome then
        (if (dictLookup ([] : Db) "a").isSome then 1 else if true then 2 else 1)
      else (if (dictLookup ([] : Db) "a").isSome then 1 else 0) :=
  classification_count_characterization true [("a", ⟨"/r/a", 0, 1⟩)] []
    (fun _ => some "h") true "admin@example.com"
    ⟨[Event.newFile "a", Event.addedToBaseline "a", Event.verified "a"],
      [("a", ⟨"h", 0, 1⟩)], 1, 0, true⟩
    "a" (by decide) (by decide) rfl

end Monitor
